import Mathlib

/-!
Shallow embedding of `xonsh/man/troff.py`: the PLY-based troff lexer
(`TroffLexer`) and the parser scaffolding (`TroffParser`).

PLY (`ply.lex`) combines all token rules of the class into one master regular
expression and, on every `token()` call, runs `master.match(lexdata, lexpos)`.
The alternatives of the master expression are tried left to right and the
first alternative that matches wins.  Their order is: token rules defined as
functions first, in source order (here only `t_NEWLINE`), then the token
rules defined as plain strings sorted by decreasing length of their pattern
text (ties keep the alphabetical order of `dir()`), giving:

  t_NEWLINE  `\n+`          (function rule)
  t_WORD     `^[^.][^ ]+`   (pattern length 10)
  t_COMMENT  `^\.\\".*$`    (9)
  t_HANGING_PARAGRAPH `^\.HP`, t_INDENT_END `^\.RE`, t_INDENT_START `^\.RS`,
  t_SECTION `^\.SH`, t_SUBSECTION `^\.SS`, t_TITLE `^\.TH`   (5, alphabetical)
  t_BOLD `^\.B`, t_ENDMARKER `\x03`, t_ITALICS `^\.I`,
  t_PARAGRAPH `^\.P`, t_SPACE `[ ]+`                         (4, alphabetical)

The master expression is compiled with `re.VERBOSE` only (PLY's default
`reflags`); `re.MULTILINE` is NOT set.  Under Python's `re`, therefore:
  - `^` matches only at absolute offset 0 of the input, even when
    `Pattern.match` is called with `pos > 0` (verified against CPython);
  - a negated class such as `[^ ]` or `[^.]` matches a newline character;
  - `.` does not match a newline, and `$` (without MULTILINE) matches only at
    the end of the input or just before a final trailing newline.
If no alternative matches, PLY builds an error token whose value is the whole
remaining text and calls `t_error`, which reports through `self._error`
(message, line, column via `token_col`) and then `self.lexer.skip(1)`.
Tokens record `lineno` (the line counter when matched) and `lexpos` (absolute
offset); only `t_NEWLINE` advances the line counter, by the number of newline
characters it consumed.
-/

namespace Troff

/-- The token kinds of `TroffLexer.tokens`. -/
inductive TokKind where
  | NEWLINE | COMMENT | ENDMARKER | SPACE
  | TITLE | SECTION | SUBSECTION | PARAGRAPH | HANGING_PARAGRAPH
  | INDENT_START | INDENT_END
  | WORD | ITALICS | BOLD
deriving DecidableEq, Repr

/-- A PLY `LexToken`: kind, the exact matched text, the line counter at match
time, and the absolute byte offset of the match. -/
structure Token where
  kind : TokKind
  text : List Char
  lineno : Nat
  lexpos : Nat
deriving DecidableEq, Repr

/-- `TroffLexer.t_error` rfind-based column: `token.lexpos - lexdata.rfind('\n',
0, token.lexpos)`.  `rfindNl s p` is the offset of the right-most newline at an
offset `< p`, or `-1` when there is none (Python's `str.rfind` convention). -/
def rfindNl (s : List Char) : Nat → Int
  | 0 => -1
  | p + 1 => if s[p]? = some '\n' then (p : Int) else rfindNl s p

/-- `TroffLexer.token_col`: the token column, `lexpos - rfind('\n', 0, lexpos)`. -/
def token_col (s : List Char) (lexpos : Nat) : Int :=
  (lexpos : Int) - rfindNl s lexpos

/-- One hexadecimal digit, lower case, as Python's `\xHH` escapes print it. -/
def hexDigitChar (n : Nat) : Char :=
  if n < 10 then Char.ofNat (48 + n) else Char.ofNat (87 + n)

/-- Python's `repr` of a one-character string, as `'{0!r}'.format` prints it:
quotes, the common backslash escapes, `\xHH` for other characters below 256.
(A printable character above 255 is printed directly, as Python does; the
border cases of Python's printability classification are not needed by any
input considered here.) -/
def pyReprChar (c : Char) : String :=
  if c = '\'' then "\"'\""
  else if c = '\\' then "'\\\\'"
  else if c = '\n' then "'\\n'"
  else if c = '\r' then "'\\r'"
  else if c = '\t' then "'\\t'"
  else if 32 ≤ c.toNat ∧ c.toNat ≤ 126 then String.mk ['\'', c, '\'']
  else if c.toNat < 256 then
    String.mk ['\'', '\\', 'x', hexDigitChar (c.toNat / 16), hexDigitChar (c.toNat % 16), '\'']
  else String.mk ['\'', c, '\'']

/-- The message built by `TroffLexer.t_error`: `'Invalid token {0!r}'.format(t.value[0])`. -/
def invalidTokenMsg (c : Char) : String :=
  "Invalid token " ++ pyReprChar c

/-- One diagnostics-sink call, as `TroffLexer._error` performs it: the offending
character and its offset, and the three arguments handed to `errfunc`
(message, line, column). -/
structure ErrEv where
  ch : Char
  pos : Nat
  msg : String
  lineno : Nat
  col : Int
deriving DecidableEq, Repr

/-- One event of a tokenization pass: an emitted token, or one
`t_error`-reported (and skipped) character. -/
inductive Ev where
  | tok : Token → Ev
  | err : ErrEv → Ev
deriving DecidableEq, Repr

/-- A lexical rule's successful match at the current position: the token kind,
the matched text, and the input left after it. -/
abbrev RuleMatch := TokKind × List Char × List Char

/-- `t_NEWLINE`, the pattern `\n+`: a maximal nonempty run of newlines,
matched at any offset. -/
def nlRule (rest : List Char) : Option RuleMatch :=
  let run := rest.takeWhile (· = '\n')
  if run.isEmpty then none
  else some (TokKind.NEWLINE, run, rest.dropWhile (· = '\n'))

/-- `t_WORD`, the pattern `^[^.][^ ]+`: only at offset 0; one character other
than a dot (a newline qualifies), then a maximal nonempty run of characters
other than a space (newlines qualify too). -/
def wordRule (pos : Nat) (rest : List Char) : Option RuleMatch :=
  if pos ≠ 0 then none
  else
    match rest with
    | [] => none
    | c :: cs =>
      if c = '.' then none
      else
        let w := cs.takeWhile (· ≠ ' ')
        if w.isEmpty then none
        else some (TokKind.WORD, c :: w, cs.dropWhile (· ≠ ' '))

/-- `t_COMMENT`, the pattern `^\.\\".*$`: only at offset 0; after the literal
`.\"`, `.*` can cover only newline-free text and `$` (no MULTILINE) matches
only at the end of the input or just before one final trailing newline, so the
rule matches exactly when nothing follows the comment text except possibly one
final newline, which stays unconsumed. -/
def commentRule (pos : Nat) (rest : List Char) : Option RuleMatch :=
  if pos ≠ 0 then none
  else
    match rest with
    | '.' :: '\\' :: '"' :: cs =>
      let a := cs.takeWhile (· ≠ '\n')
      match cs.dropWhile (· ≠ '\n') with
      | [] => some (TokKind.COMMENT, '.' :: '\\' :: '"' :: a, [])
      | ['\n'] => some (TokKind.COMMENT, '.' :: '\\' :: '"' :: a, ['\n'])
      | _ => none
    | _ => none

/-- A string rule `^<lit>`: the literal `lit` matched at offset 0 only. -/
def litRule (pos : Nat) (lit : List Char) (k : TokKind) (rest : List Char) :
    Option RuleMatch :=
  if pos ≠ 0 then none
  else if lit.isPrefixOf rest then some (k, lit, rest.drop lit.length)
  else none

/-- `t_ENDMARKER`, the pattern `\x03`: the sentinel character, at any offset. -/
def endRule (rest : List Char) : Option RuleMatch :=
  match rest with
  | '\x03' :: cs => some (TokKind.ENDMARKER, ['\x03'], cs)
  | _ => none

/-- `t_SPACE`, the pattern `[ ]+`: a maximal nonempty run of spaces, at any
offset. -/
def spaceRule (rest : List Char) : Option RuleMatch :=
  let run := rest.takeWhile (· = ' ')
  if run.isEmpty then none
  else some (TokKind.SPACE, run, rest.dropWhile (· = ' '))

/-- The alternatives of PLY's master regular expression, in match priority
order (see the header comment). -/
def ruleList (pos : Nat) (rest : List Char) : List (Option RuleMatch) :=
  [ nlRule rest,
    wordRule pos rest,
    commentRule pos rest,
    litRule pos ['.', 'H', 'P'] TokKind.HANGING_PARAGRAPH rest,
    litRule pos ['.', 'R', 'E'] TokKind.INDENT_END rest,
    litRule pos ['.', 'R', 'S'] TokKind.INDENT_START rest,
    litRule pos ['.', 'S', 'H'] TokKind.SECTION rest,
    litRule pos ['.', 'S', 'S'] TokKind.SUBSECTION rest,
    litRule pos ['.', 'T', 'H'] TokKind.TITLE rest,
    litRule pos ['.', 'B'] TokKind.BOLD rest,
    endRule rest,
    litRule pos ['.', 'I'] TokKind.ITALICS rest,
    litRule pos ['.', 'P'] TokKind.PARAGRAPH rest,
    spaceRule rest ]

/-- The master-expression match at offset `pos`, where `rest` is the input
from `pos` on: the first rule that matches. -/
def matchAt (pos : Nat) (rest : List Char) : Option RuleMatch :=
  (ruleList pos rest).findSome? id

/-- The PLY `token()` loop, fuel-indexed (any fuel at least `rest.length`
suffices).  `s` is the whole input (`lexdata`), `rest` the input from offset
`pos` on, `lineno` the current line counter.  Emits the events of the pass and
returns the final line counter.  On a match, the token records the current
`lineno` and `pos`; only a NEWLINE advances `lineno`, by its length
(`t_NEWLINE`).  On a failed match, `t_error`/`_error` report one diagnostic
for the offending character and `skip(1)` advances one character. -/
def lexRunF (s : List Char) : Nat → List Char → Nat → Nat → List Ev × Nat
  | 0, _, _, lineno => ([], lineno)
  | _ + 1, [], _, lineno => ([], lineno)
  | fuel + 1, c :: cs, pos, lineno =>
    match matchAt pos (c :: cs) with
    | some (k, text, rest') =>
      let adv := if k = TokKind.NEWLINE then text.length else 0
      let next := lexRunF s fuel rest' (pos + text.length) (lineno + adv)
      (Ev.tok ⟨k, text, lineno, pos⟩ :: next.1, next.2)
    | none =>
      let e : ErrEv := ⟨c, pos, invalidTokenMsg c, lineno, token_col s pos⟩
      let next := lexRunF s fuel cs (pos + 1) lineno
      (Ev.err e :: next.1, next.2)

/-- One full tokenization pass over `s` from a freshly reset lexer
(offset 0, line counter 1): the events in emission order, and the final line
counter. -/
def troffLex (s : List Char) : List Ev × Nat :=
  lexRunF s s.length s 0 1

/-- The tokens of an event list, in emission order. -/
def tokensOf : List Ev → List Token
  | [] => []
  | Ev.tok t :: l => t :: tokensOf l
  | Ev.err _ :: l => tokensOf l

/-- The diagnostics-sink calls of an event list, in emission order. -/
def errorsOf : List Ev → List ErrEv
  | [] => []
  | Ev.tok _ :: l => errorsOf l
  | Ev.err e :: l => e :: errorsOf l

/-- The input text covered by one event: a token's matched text, or the one
character skipped after a lexical error. -/
def evText : Ev → List Char
  | Ev.tok t => t.text
  | Ev.err e => [e.ch]

/-- The input text covered by an event list, in order. -/
def evsText : List Ev → List Char
  | [] => []
  | e :: l => evText e ++ evsText l

/-! ### Soundness of the individual lexical rules

Each rule's successful match consumed a nonempty prefix of the remaining
input: the matched text followed by the rule's leftover is the input the rule
saw. -/

theorem nlRule_sound {rest : List Char} {k : TokKind} {text rest' : List Char}
    (h : nlRule rest = some (k, text, rest')) :
    text ++ rest' = rest ∧ text ≠ [] ∧ k = TokKind.NEWLINE := by
  simp only [nlRule] at h
  split at h
  · exact absurd h (by simp)
  · next hne =>
    simp only [Option.some.injEq, Prod.mk.injEq] at h
    obtain ⟨hk, ht, hr⟩ := h
    subst ht hr
    refine ⟨List.takeWhile_append_dropWhile _ _, ?_, hk.symm⟩
    intro hnil
    exact hne (by simp [List.isEmpty_iff, hnil])

theorem wordRule_sound {pos : Nat} {rest : List Char} {k : TokKind}
    {text rest' : List Char} (h : wordRule pos rest = some (k, text, rest')) :
    text ++ rest' = rest ∧ text ≠ [] ∧ k = TokKind.WORD := by
  simp only [wordRule] at h
  split at h
  · exact absurd h (by simp)
  · split at h
    · exact absurd h (by simp)
    · next c cs =>
      split at h
      · exact absurd h (by simp)
      · split at h
        · exact absurd h (by simp)
        · simp only [Option.some.injEq, Prod.mk.injEq] at h
          obtain ⟨hk, ht, hr⟩ := h
          subst ht hr
          refine ⟨?_, by simp, hk.symm⟩
          simp [List.takeWhile_append_dropWhile]

theorem commentRule_sound {pos : Nat} {rest : List Char} {k : TokKind}
    {text rest' : List Char} (h : commentRule pos rest = some (k, text, rest')) :
    text ++ rest' = rest ∧ text ≠ [] ∧ k = TokKind.COMMENT := by
  simp only [commentRule] at h
  split at h
  · exact absurd h (by simp)
  · split at h
    · next cs =>
      split at h
      · next hdrop =>
        simp only [Option.some.injEq, Prod.mk.injEq] at h
        obtain ⟨hk, ht, hr⟩ := h
        subst ht hr
        refine ⟨?_, by simp, hk.symm⟩
        have hacs := List.takeWhile_append_dropWhile (fun c => decide (c ≠ '\n')) cs
        rw [hdrop, List.append_nil] at hacs
        simp only [List.append_nil]
        rw [hacs]
      · next hdrop =>
        simp only [Option.some.injEq, Prod.mk.injEq] at h
        obtain ⟨hk, ht, hr⟩ := h
        subst ht hr
        refine ⟨?_, by simp, hk.symm⟩
        have hacs := List.takeWhile_append_dropWhile (fun c => decide (c ≠ '\n')) cs
        rw [hdrop] at hacs
        simp only [List.cons_append]
        rw [hacs]
      · exact absurd h (by simp)
    · exact absurd h (by simp)

theorem litRule_sound {pos : Nat} {lit : List Char} {k0 : TokKind}
    {rest : List Char} {k : TokKind} {text rest' : List Char}
    (h : litRule pos lit k0 rest = some (k, text, rest')) :
    text ++ rest' = rest ∧ text = lit ∧ k = k0 := by
  simp only [litRule] at h
  split at h
  · exact absurd h (by simp)
  · split at h
    · next hpre =>
      simp only [Option.some.injEq, Prod.mk.injEq] at h
      obtain ⟨hk, ht, hr⟩ := h
      subst ht hr
      obtain ⟨t, htt⟩ := List.isPrefixOf_iff_prefix.mp hpre
      subst htt
      rw [List.drop_left]
      exact ⟨rfl, rfl, hk.symm⟩
    · exact absurd h (by simp)

theorem endRule_sound {rest : List Char} {k : TokKind} {text rest' : List Char}
    (h : endRule rest = some (k, text, rest')) :
    text ++ rest' = rest ∧ text = ['\x03'] ∧ k = TokKind.ENDMARKER := by
  simp only [endRule] at h
  split at h
  · next cs =>
    simp only [Option.some.injEq, Prod.mk.injEq] at h
    obtain ⟨hk, ht, hr⟩ := h
    subst ht hr
    exact ⟨rfl, rfl, hk.symm⟩
  · exact absurd h (by simp)

theorem spaceRule_sound {rest : List Char} {k : TokKind} {text rest' : List Char}
    (h : spaceRule rest = some (k, text, rest')) :
    text ++ rest' = rest ∧ text ≠ [] ∧ k = TokKind.SPACE := by
  simp only [spaceRule] at h
  split at h
  · exact absurd h (by simp)
  · next hne =>
    simp only [Option.some.injEq, Prod.mk.injEq] at h
    obtain ⟨hk, ht, hr⟩ := h
    subst ht hr
    refine ⟨List.takeWhile_append_dropWhile _ _, ?_, hk.symm⟩
    intro hnil
    exact hne (by simp [List.isEmpty_iff, hnil])

/-- Any successful master-expression match consumed a nonempty prefix of the
remaining input, and an ENDMARKER token's text is exactly the sentinel. -/
theorem matchAt_sound {pos : Nat} {rest : List Char} {k : TokKind}
    {text rest' : List Char} (h : matchAt pos rest = some (k, text, rest')) :
    text ++ rest' = rest ∧ text ≠ [] ∧
      (k = TokKind.ENDMARKER → text = ['\x03']) := by
  unfold matchAt at h
  obtain ⟨o, ho, hid⟩ := List.exists_of_findSome?_eq_some h
  simp only [id_eq] at hid
  subst hid
  simp only [ruleList, List.mem_cons, List.not_mem_nil, or_false] at ho
  rcases ho with h1 | h1 | h1 | h1 | h1 | h1 | h1 | h1 | h1 | h1 | h1 | h1 | h1 | h1
  · obtain ⟨ha, hb, hc⟩ := nlRule_sound h1.symm
    exact ⟨ha, hb, fun hE => absurd (hc ▸ hE) (by simp)⟩
  · obtain ⟨ha, hb, hc⟩ := wordRule_sound h1.symm
    exact ⟨ha, hb, fun hE => absurd (hc ▸ hE) (by simp)⟩
  · obtain ⟨ha, hb, hc⟩ := commentRule_sound h1.symm
    exact ⟨ha, hb, fun hE => absurd (hc ▸ hE) (by simp)⟩
  · obtain ⟨ha, hb, hc⟩ := litRule_sound h1.symm
    exact ⟨ha, by simp [hb], fun hE => absurd (hc ▸ hE) (by simp)⟩
  · obtain ⟨ha, hb, hc⟩ := litRule_sound h1.symm
    exact ⟨ha, by simp [hb], fun hE => absurd (hc ▸ hE) (by simp)⟩
  · obtain ⟨ha, hb, hc⟩ := litRule_sound h1.symm
    exact ⟨ha, by simp [hb], fun hE => absurd (hc ▸ hE) (by simp)⟩
  · obtain ⟨ha, hb, hc⟩ := litRule_sound h1.symm
    exact ⟨ha, by simp [hb], fun hE => absurd (hc ▸ hE) (by simp)⟩
  · obtain ⟨ha, hb, hc⟩ := litRule_sound h1.symm
    exact ⟨ha, by simp [hb], fun hE => absurd (hc ▸ hE) (by simp)⟩
  · obtain ⟨ha, hb, hc⟩ := litRule_sound h1.symm
    exact ⟨ha, by simp [hb], fun hE => absurd (hc ▸ hE) (by simp)⟩
  · obtain ⟨ha, hb, hc⟩ := litRule_sound h1.symm
    exact ⟨ha, by simp [hb], fun hE => absurd (hc ▸ hE) (by simp)⟩
  · obtain ⟨ha, hb, hc⟩ := endRule_sound h1.symm
    exact ⟨ha, by simp [hb], fun _ => hb⟩
  · obtain ⟨ha, hb, hc⟩ := litRule_sound h1.symm
    exact ⟨ha, by simp [hb], fun hE => absurd (hc ▸ hE) (by simp)⟩
  · obtain ⟨ha, hb, hc⟩ := litRule_sound h1.symm
    exact ⟨ha, by simp [hb], fun hE => absurd (hc ▸ hE) (by simp)⟩
  · obtain ⟨ha, hb, hc⟩ := spaceRule_sound h1.symm
    exact ⟨ha, hb, fun hE => absurd (hc ▸ hE) (by simp)⟩

/-! ### Properties of the full tokenization pass -/

/-- The scan covers the whole input: the texts of the emitted events, in
order, concatenate back to the input scanned (tokens tile their matches, and
each lexical error consumes exactly the one offending character).  Every
diagnostics-sink call reports the character standing at its offset, with the
message and the rfind-based column `t_error`/`_error` compute. -/
theorem lexRunF_sound (s : List Char) :
    ∀ (fuel : Nat) (rest : List Char) (pos lineno : Nat),
      rest.length ≤ fuel → rest = s.drop pos →
      evsText (lexRunF s fuel rest pos lineno).1 = rest ∧
      ∀ e ∈ errorsOf (lexRunF s fuel rest pos lineno).1,
        s[e.pos]? = some e.ch ∧ e.msg = invalidTokenMsg e.ch ∧
          e.col = token_col s e.pos := by
  intro fuel
  induction fuel with
  | zero =>
    intro rest pos lineno hf hd
    have hnil : rest = [] := List.length_eq_zero.mp (Nat.le_zero.mp hf)
    subst hnil
    simp [lexRunF, evsText, errorsOf]
  | succ fuel ih =>
    intro rest pos lineno hf hd
    cases rest with
    | nil => simp [lexRunF, evsText, errorsOf]
    | cons c cs =>
      cases hm : matchAt pos (c :: cs) with
      | some r =>
        obtain ⟨k, text, rest'⟩ := r
        obtain ⟨htile, hne, -⟩ := matchAt_sound hm
        have hlen : (c :: cs).length = text.length + rest'.length := by
          rw [← htile, List.length_append]
        have htpos : 0 < text.length := List.length_pos.mpr hne
        have hle : rest'.length ≤ fuel := by
          simp only [List.length_cons] at hf hlen
          omega
        have hd' : rest' = s.drop (pos + text.length) := by
          rw [← List.drop_drop, ← hd, ← htile, List.drop_left]
        obtain ⟨iha, ihb⟩ :=
          ih rest' (pos + text.length)
            (lineno + if k = TokKind.NEWLINE then text.length else 0) hle hd'
        constructor
        · simp only [lexRunF, hm, evsText, evText]
          rw [iha, htile]
        · intro e he
          simp only [lexRunF, hm, errorsOf] at he
          exact ihb e he
      | none =>
        have hget : s[pos]? = some c := by
          have h0 : (s.drop pos)[0]? = some c := by rw [← hd]; simp
          rwa [List.getElem?_drop, Nat.add_zero] at h0
        have hle : cs.length ≤ fuel := by
          simp only [List.length_cons] at hf
          omega
        have hd' : cs = s.drop (pos + 1) := by
          rw [← List.drop_drop, ← hd, List.drop_one, List.tail_cons]
        obtain ⟨iha, ihb⟩ := ih cs (pos + 1) lineno hle hd'
        constructor
        · simp only [lexRunF, hm, evsText, evText]
          rw [iha]
          rfl
        · intro e he
          simp only [lexRunF, hm, errorsOf, List.mem_cons] at he
          rcases he with he | he
          · subst he
            exact ⟨hget, rfl, rfl⟩
          · exact ihb e he

/-- The full pass over `s` from offset 0 covers `s` exactly. -/
theorem troffLex_evsText (s : List Char) : evsText (troffLex s).1 = s :=
  (lexRunF_sound s s.length s 0 1 le_rfl (List.drop_zero s).symm).1

/-- A scan over input that contains no `\x03` character never emits an
ENDMARKER token (string rules cannot fabricate characters: an ENDMARKER match
consumes a `\x03` of the input). -/
theorem lexRunF_no_endmarker (s : List Char) :
    ∀ (fuel : Nat) (rest : List Char) (pos lineno : Nat),
      '\x03' ∉ rest →
      ∀ t ∈ tokensOf (lexRunF s fuel rest pos lineno).1,
        t.kind ≠ TokKind.ENDMARKER := by
  intro fuel
  induction fuel with
  | zero =>
    intro rest pos lineno h03
    simp [lexRunF, tokensOf]
  | succ fuel ih =>
    intro rest pos lineno h03
    cases rest with
    | nil => simp [lexRunF, tokensOf]
    | cons c cs =>
      cases hm : matchAt pos (c :: cs) with
      | some r =>
        obtain ⟨k, text, rest'⟩ := r
        obtain ⟨htile, -, hend⟩ := matchAt_sound hm
        intro t ht
        simp only [lexRunF, hm, tokensOf, List.mem_cons] at ht
        rcases ht with ht | ht
        · subst ht
          intro hE
          have htext := hend hE
          apply h03
          rw [← htile, htext]
          simp
        · refine ih rest' (pos + text.length) _ ?_ t ht
          intro hmem
          exact h03 (htile ▸ List.mem_append_right text hmem)
      | none =>
        intro t ht
        simp only [lexRunF, hm, tokensOf] at ht
        refine ih cs (pos + 1) lineno ?_ t ht
        intro hmem
        exact h03 (List.mem_cons_of_mem c hmem)

/-- When a pass reported no lexical error, the events are exactly the tokens,
so the concatenated token texts are the concatenated event texts. -/
theorem evsText_of_no_errors :
    ∀ l : List Ev, errorsOf l = [] →
      evsText l = ((tokensOf l).map Token.text).flatten := by
  intro l
  induction l with
  | nil => intro; rfl
  | cons e l ih =>
    intro h
    cases e with
    | tok t =>
      simp only [errorsOf] at h
      simp only [evsText, evText, tokensOf, List.map_cons, List.flatten_cons, ih h]
    | err e => simp [errorsOf] at h

/-! ### The backward newline scan of `token_col` -/

/-- When no newline precedes offset `p`, `rfind` reports `-1`. -/
theorem rfindNl_of_no_newline (s : List Char) :
    ∀ p : Nat, (∀ i ∈ List.range p, s[i]? ≠ some '\n') → rfindNl s p = -1 := by
  intro p
  induction p with
  | zero => intro; rfl
  | succ p ih =>
    intro h
    have hp : s[p]? ≠ some '\n' := h p (List.mem_range.mpr (Nat.lt_succ_self p))
    simp only [rfindNl, if_neg hp]
    exact ih fun i hi => h i (List.mem_range.mpr (Nat.lt_succ_of_lt (List.mem_range.mp hi)))

/-- When `o` is the offset of the right-most newline before offset `p`,
`rfind` reports `o`. -/
theorem rfindNl_of_nearest (s : List Char) :
    ∀ p o : Nat, o < p → s[o]? = some '\n' →
      (∀ j ∈ List.range p, o < j → s[j]? ≠ some '\n') →
      rfindNl s p = (o : Int) := by
  intro p
  induction p with
  | zero => omega
  | succ p ih =>
    intro o ho hnl hno
    by_cases hop : o = p
    · subst hop
      simp only [rfindNl, if_pos hnl]
    · have holt : o < p := by omega
      have hp : s[p]? ≠ some '\n' :=
        hno p (List.mem_range.mpr (Nat.lt_succ_self p)) holt
      simp only [rfindNl, if_neg hp]
      exact ih o holt hnl fun j hj hoj =>
        hno j (List.mem_range.mpr (Nat.lt_succ_of_lt (List.mem_range.mp hj))) hoj

/-! ### The stateful lexer object and the parser scaffolding -/

/-- The state of the underlying PLY lexer object that `lex.lex` returns:
the part the troff code touches is its `lineno` attribute. -/
structure PlyLexer where
  lineno : Nat
deriving DecidableEq, Repr

/-- The mutable state of a `TroffLexer` instance: `self.lexer` is `None` until
`build()` is called, `self.last` is the last token `token()` returned, and
`self.fname` the filename used for diagnostics.  (The `errfunc` callback is
not part of the state; its calls are the `ErrEv` events above.) -/
structure TroffLexer where
  lexer : Option PlyLexer
  last : Option Token
  fname : String
deriving DecidableEq, Repr

/-- The `TroffLexer.lineno` property getter: `self.lexer.lineno` when the PLY
lexer has been built, an implicit `None` otherwise (the `if` falls through). -/
def TroffLexer.lineno (l : TroffLexer) : Option Nat :=
  l.lexer.map PlyLexer.lineno

/-- The `TroffLexer.lineno` property setter: assigns `self.lexer.lineno` when
the PLY lexer has been built and silently does nothing otherwise. -/
def TroffLexer.lineno_set (l : TroffLexer) (v : Nat) : TroffLexer :=
  match l.lexer with
  | none => l
  | some p => { l with lexer := some { p with lineno := v } }

/-- `TroffLexer.reset`: sets `self.lexer.lineno = 1` and `self.last = None`.
On an unbuilt lexer (`self.lexer is None`) the attribute assignment raises,
modelled as `none`. -/
def TroffLexer.reset (l : TroffLexer) : Option TroffLexer :=
  match l.lexer with
  | none => none
  | some p => some { l with lexer := some { p with lineno := 1 }, last := none }

/-- The mutable state of a `TroffParser` instance: the owned lexer and
`self._last_yielded_token`, the most recent lookahead token given to yacc. -/
structure TroffParser where
  lexer : TroffLexer
  last_yielded : Option Token
deriving DecidableEq, Repr

/-- `TroffParser.reset`: resets the owned lexer and clears
`self._last_yielded_token`. -/
def TroffParser.reset (p : TroffParser) : Option TroffParser :=
  match p.lexer.reset with
  | none => none
  | some l => some { lexer := l, last_yielded := none }

/-- A parser instance whose owned lexer has been built: `TroffLexer.build`
ends in `reset()`, so the built PLY lexer starts at line 1 with no last
token. -/
def builtTroffParser : TroffParser :=
  { lexer := { lexer := some { lineno := 1 }, last := none, fname := "" },
    last_yielded := none }

/-- `TroffParser.parse`: calls `self.reset()`, stores the filename, and hands
the lexer to yacc, which feeds it `s` and pulls the whole token stream; the
value is that stream (with the final line counter).  Tree construction is the
external grammar artifact's concern and out of scope; what `parse` determines
here is the token sequence the grammar consumes.  The line counter the stream
starts from is the owned lexer's state after the reset. -/
def TroffParser.parse (p : TroffParser) (s : List Char) (fname : String) :
    Option (List Ev × Nat) :=
  match p.reset with
  | none => none
  | some p1 =>
    let p2 : TroffParser := { p1 with lexer := { p1.lexer with fname := fname } }
    match p2.lexer.lexer with
    | none => none
    | some pl => some (lexRunF s s.length s 0 pl.lineno)

/-- Modelled from the spec: `Location` is imported from `xonsh.parser`, which
is not among the sources here; the spec defines it as an immutable value
{file identifier, line, optional column}. -/
structure Location where
  fname : String
  lineno : Nat
  column : Option Int
deriving DecidableEq, Repr

/-- `TroffParser.token_col`: the parser-side column accessor returns the
token's lexical offset `t.lexpos` (not the lexer's backward-scan column). -/
def TroffParser.token_col (_p : TroffParser) (t : Token) : Int :=
  t.lexpos

/-- The `TroffParser.lineno` property: the recorded line of the last token
the lexer handed out, or 0 when there is none. -/
def TroffParser.lineno (p : TroffParser) : Nat :=
  match p.lexer.last with
  | none => 0
  | some t => t.lineno

/-- The `TroffParser.col` property: `token_col` of the lookahead token
(`_yacc_lookahead_token`, i.e. `self.lexer.last`), or 1 when there is none. -/
def TroffParser.col (p : TroffParser) : Int :=
  match p.lexer.last with
  | none => 1
  | some t => p.token_col t

/-- `TroffParser.currloc`: a `Location` at the parser's filename. -/
def TroffParser.currloc (p : TroffParser) (lineno : Nat) (column : Option Int) :
    Location :=
  { fname := p.lexer.fname, lineno := lineno, column := column }

/-- Modelled from the spec: the grammar's error hook (the grammar itself is an
externally supplied artifact) builds a `Location` from the parser's `lineno`
and `col` accessors and raises, through `_parse_error`, a `SyntaxError`
carrying it; the `parse` call terminates with no partial tree. -/
def TroffParser.on_parse_error (p : TroffParser) (msg : String) :
    Except (String × Location) Unit :=
  Except.error (msg, p.currloc p.lineno (some p.col))

/-- The column computation exactly as claim C9 words it: `P` minus the offset
of the nearest preceding newline, or minus the offset of the start of the
input (that is, 0) when no newline precedes `P`. -/
def token_col_claimed (s : List Char) (lexpos : Nat) : Int :=
  (lexpos : Int) -
    ((((List.range lexpos).filter fun i => decide (s[i]? = some '\n')).max?.getD 0 : Nat) : Int)

/-! ### The claims -/

/-- C1: for an input whose tokenization pass reports no lexical error (the
claim's "no unrecognized characters"), concatenating the emitted tokens' text
fields in emission order reproduces the original input exactly.  When the
input carries the terminating sentinel, the ENDMARKER token contributes
exactly the sentinel character, so the concatenation with that token excluded
reproduces the input minus the sentinel. -/
theorem c1_round_trip (s : List Char)
    (h : errorsOf (troffLex s).1 = []) :
    ((tokensOf (troffLex s).1).map Token.text).flatten = s := by
  rw [← evsText_of_no_errors _ h]
  exact troffLex_evsText s

/-- Witness for C1 at the error-free input `".TH"`. -/
theorem c1_round_trip_witness :
    errorsOf (troffLex ['.', 'T', 'H']).1 = [] ∧
      ((tokensOf (troffLex ['.', 'T', 'H']).1).map Token.text).flatten =
        ['.', 'T', 'H'] :=
  ⟨by decide, c1_round_trip ['.', 'T', 'H'] (by decide)⟩

/-- C2: the code evaluated at the claim's own input `"A\n\n\nB"`.  Because
`[^ ]+` in `t_WORD` matches newline characters, the whole input is emitted as
ONE token WORD("A\n\n\nB") and the final line counter is 1 — not WORD("A"),
a NEWLINE spanning 3 newlines, WORD("B") with the counter at 4 as the claim
states. -/
theorem c2_word_absorbs_newlines :
    troffLex ['A', '\n', '\n', '\n', 'B'] =
      ([Ev.tok { kind := TokKind.WORD, text := ['A', '\n', '\n', '\n', 'B'],
                 lineno := 1, lexpos := 0 }], 1) := by
  decide

/-- C3: the code evaluated at `"\n.SH"`.  The master expression is compiled
without MULTILINE, so the `^` anchors match only at offset 0: after the
NEWLINE token, `.SH` at offsets 1..3 matches no rule and is reported as three
lexical errors; no SECTION token is ever produced after a newline. -/
theorem c3_line_anchor_only_at_offset_zero :
    troffLex ['\n', '.', 'S', 'H'] =
      ([Ev.tok { kind := TokKind.NEWLINE, text := ['\n'], lineno := 1, lexpos := 0 },
        Ev.err { ch := '.', pos := 1, msg := "Invalid token '.'", lineno := 2, col := 1 },
        Ev.err { ch := 'S', pos := 2, msg := "Invalid token 'S'", lineno := 2, col := 2 },
        Ev.err { ch := 'H', pos := 3, msg := "Invalid token 'H'", lineno := 2, col := 3 }],
       2) := by
  decide

/-- C4: the code evaluated at `"A\n"`: the maximal newline run (length 1) is
absorbed into the WORD token (`[^ ]+` matches newlines), so no NEWLINE token
is emitted for it and the line counter stays 1 instead of advancing by 1. -/
theorem c4_newline_run_absorbed_into_word :
    troffLex ['A', '\n'] =
      ([Ev.tok { kind := TokKind.WORD, text := ['A', '\n'],
                 lineno := 1, lexpos := 0 }], 1) := by
  decide

/-- C5 counterexample: for the input `"\n"` the emitted stream is the single
NEWLINE token — it is not terminated by an ENDMARKER token, and zero (not
exactly one) ENDMARKER tokens are emitted. -/
theorem c5_counterexample :
    (troffLex ['\n']).1 =
      [Ev.tok { kind := TokKind.NEWLINE, text := ['\n'], lineno := 1, lexpos := 0 }] := by
  decide

/-- C5 as amended: an ENDMARKER token arises only from a `\x03` character of
the input itself (the lexer appends no sentinel): an input containing no
`\x03` yields a stream with no ENDMARKER at all, and the one-character input
`"\x03"` yields exactly the single ENDMARKER token. -/
theorem c5_endmarker_only_from_sentinel (s : List Char) (h : '\x03' ∉ s) :
    (∀ t ∈ tokensOf (troffLex s).1, t.kind ≠ TokKind.ENDMARKER) ∧
      tokensOf (troffLex ['\x03']).1 =
        [{ kind := TokKind.ENDMARKER, text := ['\x03'], lineno := 1, lexpos := 0 }] :=
  ⟨lexRunF_no_endmarker s s.length s 0 1 h, by decide⟩

/-- Witness for the amended C5 at the sentinel-free input `"\n"`. -/
theorem c5_endmarker_witness :
    '\x03' ∉ (['\n'] : List Char) ∧
      ∀ t ∈ tokensOf (troffLex ['\n']).1, t.kind ≠ TokKind.ENDMARKER :=
  ⟨by decide, (c5_endmarker_only_from_sentinel ['\n'] (by decide)).1⟩

/-- C6: the parser's error path.  With a lookahead token available
(`self.lexer.last`), the Location carried by the raised error has that token's
recorded line number and its lexical offset (the parser-side `token_col`) as
the column; with no lookahead token it defaults to line 0, column 1.  In both
cases the result is an error carrying the Location — no tree is returned. -/
theorem c6_parse_error_location (p : TroffParser) (msg : String) :
    p.on_parse_error msg =
      Except.error (msg,
        match p.lexer.last with
        | some t => { fname := p.lexer.fname, lineno := t.lineno,
                      column := some (TroffParser.token_col p t) }
        | none => { fname := p.lexer.fname, lineno := 0, column := some 1 }) := by
  cases h : p.lexer.last with
  | none =>
    simp [TroffParser.on_parse_error, TroffParser.currloc, TroffParser.lineno,
      TroffParser.col, TroffParser.token_col, h]
  | some t =>
    simp [TroffParser.on_parse_error, TroffParser.currloc, TroffParser.lineno,
      TroffParser.col, TroffParser.token_col, h]

/-- C7: lexical errors are non-fatal and precisely accounted for: the pass
always continues to the end of the input — the event texts tile the whole
input, each unmatched position contributing exactly its one skipped
character — and every diagnostics-sink call carries the message identifying
the offending character and that character's recorded line and rfind-based
column. -/
theorem c7_lexical_errors_nonfatal (s : List Char) :
    evsText (troffLex s).1 = s ∧
      ∀ e ∈ errorsOf (troffLex s).1,
        s[e.pos]? = some e.ch ∧ e.msg = invalidTokenMsg e.ch ∧
          e.col = token_col s e.pos :=
  ⟨(lexRunF_sound s s.length s 0 1 le_rfl (List.drop_zero s).symm).1,
   (lexRunF_sound s s.length s 0 1 le_rfl (List.drop_zero s).symm).2⟩

/-- Witness for C7 at the input `"\x01"`, whose single character is
unrecognized. -/
theorem c7_witness :
    evsText (troffLex ['\x01']).1 = ['\x01'] ∧
      ((['\x01'] : List Char)[(0 : Nat)]? = some '\x01' ∧
        "Invalid token '\\x01'" = invalidTokenMsg '\x01' ∧
        (1 : Int) = token_col ['\x01'] 0) :=
  ⟨(c7_lexical_errors_nonfatal ['\x01']).1,
   (c7_lexical_errors_nonfatal ['\x01']).2
     { ch := '\x01', pos := 0, msg := "Invalid token '\\x01'", lineno := 1, col := 1 }
     (by decide)⟩

/-- C8: `TroffParser.parse` on a (built) instance resets the owned lexer's
line counter to 1, clears its last-token record and the parser's stored
lookahead token before consuming input, so a stale instance parses exactly as
a fresh built one: the same token stream, line numbers starting at 1 again,
independent of anything parsed before. -/
theorem c8_parse_resets (p : TroffParser) (pl : PlyLexer) (s : List Char)
    (fname : String) (h : p.lexer.lexer = some pl) :
    (∃ p1, p.reset = some p1 ∧ p1.lexer.lineno = some 1 ∧
        p1.lexer.last = none ∧ p1.last_yielded = none) ∧
      p.parse s fname = builtTroffParser.parse s fname ∧
      p.parse s fname = some (troffLex s) := by
  obtain ⟨⟨lx, lst, fn⟩, ly⟩ := p
  cases lx with
  | none => exact absurd h (by simp)
  | some q =>
    exact ⟨⟨_, rfl, rfl, rfl, rfl⟩, rfl, rfl⟩

/-- Witness for C8: a stale instance (line counter 47, pending last and
lookahead tokens) parses `"A"` exactly as a fresh built instance. -/
theorem c8_parse_resets_witness :
    (∃ p1, TroffParser.reset
        { lexer := { lexer := some { lineno := 47 },
                     last := some { kind := TokKind.WORD, text := ['x'],
                                    lineno := 9, lexpos := 9 },
                     fname := "old" },
          last_yielded := some { kind := TokKind.WORD, text := ['x'],
                                 lineno := 9, lexpos := 9 } } = some p1 ∧
        p1.lexer.lineno = some 1 ∧ p1.lexer.last = none ∧ p1.last_yielded = none) ∧
      TroffParser.parse
        { lexer := { lexer := some { lineno := 47 },
                     last := some { kind := TokKind.WORD, text := ['x'],
                                    lineno := 9, lexpos := 9 },
                     fname := "old" },
          last_yielded := some { kind := TokKind.WORD, text := ['x'],
                                 lineno := 9, lexpos := 9 } } ['A'] "doc" =
        builtTroffParser.parse ['A'] "doc" ∧
      TroffParser.parse
        { lexer := { lexer := some { lineno := 47 },
                     last := some { kind := TokKind.WORD, text := ['x'],
                                    lineno := 9, lexpos := 9 },
                     fname := "old" },
          last_yielded := some { kind := TokKind.WORD, text := ['x'],
                                 lineno := 9, lexpos := 9 } } ['A'] "doc" =
        some (troffLex ['A']) :=
  c8_parse_resets _ { lineno := 47 } ['A'] "doc" rfl

/-- C9 counterexample: for a token at offset 1 of the input `"AB"` (no newline
precedes it), the code computes column 2 (`1 - rfind = 1 - (-1)`), while the
claim's formula — 1 minus the offset of the start of the input, that is 0 —
gives 1. -/
theorem c9_counterexample :
    token_col ['A', 'B'] 1 ≠ token_col_claimed ['A', 'B'] 1 := by
  decide

/-- C9 as amended: `token_col` returns P minus the offset of the nearest
newline preceding P when one exists, and P + 1 (not P) when no newline
precedes P — the backward scan's sentinel is -1, one position before the
start of the input. -/
theorem c9_token_col_amended (s : List Char) (p : Nat) :
    ((∀ i ∈ List.range p, s[i]? ≠ some '\n') →
        token_col s p = (p : Int) + 1) ∧
      (∀ o ∈ List.range p, s[o]? = some '\n' →
        (∀ j ∈ List.range p, o < j → s[j]? ≠ some '\n') →
        token_col s p = (p : Int) - (o : Int)) := by
  constructor
  · intro h
    unfold token_col
    rw [rfindNl_of_no_newline s p h]
    omega
  · intro o ho hnl hno
    unfold token_col
    rw [rfindNl_of_nearest s p o (List.mem_range.mp ho) hnl hno]

/-- Witness for the amended C9: both branches at concrete inputs — no
preceding newline (`"CD"`, offset 1), and a nearest newline at offset 0
(`"\nA"`, offset 2). -/
theorem c9_token_col_witness :
    token_col ['C', 'D'] 1 = ((1 : Nat) : Int) + 1 ∧
      token_col ['\n', 'A'] 2 = ((2 : Nat) : Int) - ((0 : Nat) : Int) :=
  ⟨(c9_token_col_amended ['C', 'D'] 1).1 (by decide),
   (c9_token_col_amended ['\n', 'A'] 2).2 0 (by decide) (by decide) (by decide)⟩

/-- C10: on a `TroffLexer` whose PLY lexer has not been built
(`self.lexer is None`), reading the `lineno` property returns `None` and
assigning to it changes nothing; neither access raises. -/
theorem c10_unbuilt_lexer_lineno (l : TroffLexer) (v : Nat) (h : l.lexer = none) :
    l.lineno = none ∧ l.lineno_set v = l := by
  obtain ⟨lx, lst, fn⟩ := l
  cases lx with
  | none => exact ⟨rfl, rfl⟩
  | some q => exact absurd h (by simp)

/-- Witness for C10 at a freshly constructed, unbuilt lexer. -/
theorem c10_unbuilt_lexer_witness :
    ({ lexer := none, last := none, fname := "" } : TroffLexer).lineno = none ∧
      TroffLexer.lineno_set { lexer := none, last := none, fname := "" } 5 =
        { lexer := none, last := none, fname := "" } :=
  c10_unbuilt_lexer_lineno { lexer := none, last := none, fname := "" } 5 rfl

end Troff
